import Mathlib

/-!
Shallow embedding of the core of the stori-challenge backend
(transaction store, analytics engine, advisory service) and proofs of the
specification's claims about it.

Modelling conventions:
* Go `float64` is embedded as `ℚ` with exact arithmetic; `math.Round`
  (round half away from zero) is embedded exactly.
* Go `time.Time` values produced by parsing "YYYY-MM-DD" dates are embedded
  as `CalDate` triples; `Before`/`After`/`Equal` become comparisons of the
  monotone key `y*10000 + m*100 + d`.
* Go maps (`map[string]*CategoryDetail`, `map[string]*TimelinePoint`) are
  embedded as association lists in first-encounter order; Go's randomized
  iteration order is made explicit where a result depends on it.
* `error` returns become `Except DomainError _` / `Option DomainError`.
* `time.Now()` and the outbound OpenAI HTTP call are effects; they are
  embedded as explicit parameters (`now : String`, `CallResult`).
-/

set_option allowUnsafeReducibility true

attribute [semireducible] Rat.add Rat.mul Rat.inv Rat.sub Rat.ofScientific

namespace Stori

/-- Domain-level errors, from `internal/domain/errors.go`. -/
inductive DomainError where
  | ErrInvalidDate
  | ErrInvalidCategory
  | ErrInvalidType
  | ErrInvalidAmount
  | ErrNoTransactions
  | ErrInvalidDateRange
  deriving DecidableEq, Repr

/-- A calendar date as parsed from "YYYY-MM-DD" (Go `time.Time` at midnight UTC). -/
structure CalDate where
  y : Nat
  m : Nat
  d : Nat
  deriving DecidableEq, Repr

/-- Monotone key embedding `time.Time` ordering for calendar-valid dates. -/
def CalDate.key (dt : CalDate) : Nat :=
  dt.y * 10000 + dt.m * 100 + dt.d

/-- `a.Before(b)` for parsed dates. -/
def CalDate.before (a b : CalDate) : Prop := a.key < b.key

/-- `a.After(b)` for parsed dates. -/
def CalDate.after (a b : CalDate) : Prop := b.key < a.key

instance : DecidablePred fun p : CalDate × CalDate => p.1.before p.2 :=
  fun _ => Nat.decLt _ _

/-- Gregorian leap-year test (Go `time` package semantics). -/
def isLeapYear (y : Nat) : Bool :=
  y % 4 == 0 && (y % 100 != 0 || y % 400 == 0)

/-- Days in a month, as validated by Go's `time.Parse`. -/
def daysInMonth (y m : Nat) : Nat :=
  if m == 2 then (if isLeapYear y then 29 else 28)
  else if m == 4 || m == 6 || m == 9 || m == 11 then 30
  else 31

/-- Decimal digit value of a character, `none` when not a digit. -/
def digitVal (c : Char) : Option Nat :=
  if c.isDigit then some (c.toNat - 48) else none

/-- Embeds Go `time.Parse("2006-01-02", s)`: exactly ten characters
`YYYY-MM-DD`, zero-padded, with month and day validity checks. -/
def parseDateString (s : String) : Option CalDate :=
  match s.data with
  | [a, b, c, e, sep1, f, g, sep2, h, i] =>
    if sep1 = '-' ∧ sep2 = '-' then
      match digitVal a, digitVal b, digitVal c, digitVal e,
            digitVal f, digitVal g, digitVal h, digitVal i with
      | some a', some b', some c', some e', some f', some g', some h', some i' =>
        let yr := ((a' * 10 + b') * 10 + c') * 10 + e'
        let mo := f' * 10 + g'
        let dy := h' * 10 + i'
        if 1 ≤ mo ∧ mo ≤ 12 ∧ 1 ≤ dy ∧ dy ≤ daysInMonth yr mo then
          some ⟨yr, mo, dy⟩
        else none
      | _, _, _, _, _, _, _, _ => none
    else none
  | _ => none

/-- Left-pad the decimal representation of `n` with zeros to width `w`
(Go's zero-padded `Format` verbs). -/
def padNum (w : Nat) (n : Nat) : String :=
  let s := toString n
  String.mk (List.replicate (w - s.length) '0') ++ s

/-- `date.Format("2006-01-02")`. -/
def CalDate.formatISO (dt : CalDate) : String :=
  padNum 4 dt.y ++ "-" ++ padNum 2 dt.m ++ "-" ++ padNum 2 dt.d

/-- `date.Format("2006-01")`, the timeline's zero-padded year-month key. -/
def CalDate.formatYearMonth (dt : CalDate) : String :=
  padNum 4 dt.y ++ "-" ++ padNum 2 dt.m

/-- Go `math.Round`: nearest integer, half away from zero. (`Rat.floor` is
the computable floor, equal to `Int.floor` by `Rat.floor_def'`.) -/
def mathRound (x : ℚ) : ℤ :=
  if x < 0 then -((-x + 1/2).floor) else (x + 1/2).floor

/-- `roundToTwo` from `analytics_service.go` (and `roundToTwoDecimals` from
`domain`): `math.Round(val*100)/100`. -/
def roundToTwo (val : ℚ) : ℚ :=
  (mathRound (val * 100) : ℚ) / 100

/-- `domain.Transaction`. Amounts (`float64` in Go) are embedded as `ℚ`. -/
structure Transaction where
  Date : String
  Amount : ℚ
  Category : String
  Description : String
  «Type» : String
  deriving DecidableEq, Repr

namespace Transaction

/-- `Transaction.IsIncome`. -/
def IsIncome (t : Transaction) : Bool := t.«Type» == "income"

/-- `Transaction.IsExpense`. -/
def IsExpense (t : Transaction) : Bool := t.«Type» == "expense"

/-- `Transaction.AbsoluteAmount`. -/
def AbsoluteAmount (t : Transaction) : ℚ := |t.Amount|

/-- `Transaction.ParseDate`. -/
def ParseDate (t : Transaction) : Option CalDate := parseDateString t.Date

/-- `Transaction.GetYearMonth`. -/
def GetYearMonth (t : Transaction) : Option String :=
  (t.ParseDate).map CalDate.formatYearMonth

/-- `Transaction.Validate`: `none` means the transaction is valid,
`some e` embeds Go's returned error. -/
def Validate (t : Transaction) : Option DomainError :=
  if t.Date = "" then some .ErrInvalidDate
  else if (parseDateString t.Date).isNone then some .ErrInvalidDate
  else if t.Category = "" then some .ErrInvalidCategory
  else if t.«Type» ≠ "income" ∧ t.«Type» ≠ "expense" then some .ErrInvalidType
  else if t.«Type» = "income" ∧ t.Amount < 0 then some .ErrInvalidAmount
  else if t.«Type» = "expense" ∧ t.Amount > 0 then some .ErrInvalidAmount
  else none

end Transaction

/-- `domain.Period`. -/
structure Period where
  Start : String
  End : String
  Months : ℤ
  deriving DecidableEq, Repr

/-- `domain.CategoryDetail`. -/
structure CategoryDetail where
  Total : ℚ
  Count : ℕ
  Percentage : ℚ
  deriving DecidableEq, Repr

/-- `domain.FinancialSummary`. -/
structure FinancialSummary where
  TotalIncome : ℚ
  TotalExpenses : ℚ
  NetSavings : ℚ
  SavingsRate : ℚ
  deriving DecidableEq, Repr

/-- `FinancialSummary.CalculateSavingsRate`, functional form: returns the
summary with `SavingsRate` updated. -/
def FinancialSummary.CalculateSavingsRate (fs : FinancialSummary) : FinancialSummary :=
  if fs.TotalIncome > 0 then
    { fs with SavingsRate := roundToTwo ((fs.NetSavings / fs.TotalIncome) * 100) }
  else
    { fs with SavingsRate := 0 }

/-- `domain.CategorySummary`. Go's `map[string]CategoryDetail` is embedded as
an association list; the list order stands for the map's iteration order. -/
structure CategorySummary where
  Income : List (String × CategoryDetail)
  Expenses : List (String × CategoryDetail)
  Summary : FinancialSummary
  Period : Period
  deriving DecidableEq, Repr

/-- `domain.TimelinePoint`. -/
structure TimelinePoint where
  Period : String
  Income : ℚ
  Expenses : ℚ
  Net : ℚ
  deriving DecidableEq, Repr

/-- `domain.TimelineResponse`. -/
structure TimelineResponse where
  Timeline : List TimelinePoint
  Aggregation : String
  deriving DecidableEq, Repr

/-- `domain.TransactionsResponse`. -/
structure TransactionsResponse where
  Transactions : List Transaction
  Count : ℕ
  Period : Period
  deriving DecidableEq, Repr

/-- `repository.JSONRepository`: the in-memory transaction store. -/
structure JSONRepository where
  transactions : List Transaction
  deriving Repr

namespace JSONRepository

/-- `JSONRepository.GetAll`. -/
def GetAll (r : JSONRepository) : Except DomainError (List Transaction) :=
  if r.transactions = [] then .error .ErrNoTransactions
  else .ok r.transactions

/-- The date-range filter of `GetByDateRange`: a transaction passes when its
date parses and lies within `[start, end]` inclusive (Go:
`(txDate.Equal(start) || txDate.After(start)) && (txDate.Equal(end) || txDate.Before(end))`);
unparsable dates are skipped. -/
def dateWithin (start endd : CalDate) (tx : Transaction) : Bool :=
  match tx.ParseDate with
  | some d => start.key ≤ d.key ∧ d.key ≤ endd.key
  | none => false

/-- `JSONRepository.GetByDateRange`. -/
def GetByDateRange (r : JSONRepository) (start endd : CalDate) :
    Except DomainError (List Transaction) :=
  if endd.key < start.key then .error .ErrInvalidDateRange
  else
    let filtered := r.transactions.filter (dateWithin start endd)
    if filtered = [] then .error .ErrNoTransactions
    else .ok filtered

/-- `JSONRepository.GetByType`. -/
def GetByType (r : JSONRepository) (txType : String) :
    Except DomainError (List Transaction) :=
  let filtered := r.transactions.filter (fun tx => tx.«Type» == txType)
  if filtered = [] then .error .ErrNoTransactions
  else .ok filtered

/-- `JSONRepository.GetByCategory`. -/
def GetByCategory (r : JSONRepository) (category : String) :
    Except DomainError (List Transaction) :=
  let filtered := r.transactions.filter (fun tx => tx.Category == category)
  if filtered = [] then .error .ErrNoTransactions
  else .ok filtered

/-- The min/max scan shared by `GetDateRange` and
`getDateRangeFromTransactions`: fold over the remaining transactions,
skipping unparsable dates, widening the current bounds. -/
def dateRangeLoop : List Transaction → CalDate → CalDate → CalDate × CalDate
  | [], mn, mx => (mn, mx)
  | tx :: rest, mn, mx =>
    match tx.ParseDate with
    | none => dateRangeLoop rest mn mx
    | some d =>
      dateRangeLoop rest (if d.key < mn.key then d else mn)
        (if mx.key < d.key then d else mx)

/-- The "find the first parseable date" phase of the same scan. -/
def dateRangeScan : List Transaction → Except DomainError (CalDate × CalDate)
  | [] => .error .ErrNoTransactions
  | tx :: rest =>
    match tx.ParseDate with
    | none => dateRangeScan rest
    | some d => .ok (dateRangeLoop rest d d)

/-- `JSONRepository.GetDateRange`. -/
def GetDateRange (r : JSONRepository) : Except DomainError (CalDate × CalDate) :=
  if r.transactions = [] then .error .ErrNoTransactions
  else dateRangeScan r.transactions

/-- `JSONRepository.Count`. -/
def Count (r : JSONRepository) : ℕ := r.transactions.length

end JSONRepository

/-! ## Analytics engine (`internal/service/analytics_service.go`)

The `AnalyticsService` holds only its repository, so its methods are embedded
as functions of a `JSONRepository`. -/

/-- `AnalyticsService.aggregateCategory`: insert-or-update of the category's
entry, keeping the association list in first-encounter order (the entry a Go
map would hold for that key). -/
def aggregateCategory (cats : List (String × CategoryDetail)) (tx : Transaction) :
    List (String × CategoryDetail) :=
  match cats with
  | [] => [(tx.Category, { Total := tx.AbsoluteAmount, Count := 1, Percentage := 0 })]
  | (k, v) :: rest =>
    if k = tx.Category then
      (k, { v with Total := v.Total + tx.AbsoluteAmount, Count := v.Count + 1 }) :: rest
    else (k, v) :: aggregateCategory rest tx

/-- The running state of `GetCategorySummary`'s aggregation loop. -/
structure AggState where
  incomeCats : List (String × CategoryDetail)
  expenseCats : List (String × CategoryDetail)
  totalIncome : ℚ
  totalExpenses : ℚ

/-- One iteration of `GetCategorySummary`'s loop over the transactions. -/
def aggStep (st : AggState) (tx : Transaction) : AggState :=
  if tx.IsIncome then
    { st with totalIncome := st.totalIncome + tx.Amount,
              incomeCats := aggregateCategory st.incomeCats tx }
  else if tx.IsExpense then
    { st with totalExpenses := st.totalExpenses + tx.AbsoluteAmount,
              expenseCats := aggregateCategory st.expenseCats tx }
  else st

/-- The whole aggregation loop of `GetCategorySummary`. -/
def aggregateTransactions (txs : List Transaction) : AggState :=
  txs.foldl aggStep ⟨[], [], 0, 0⟩

/-- `AnalyticsService.calculatePercentages`. -/
def calculatePercentages (cats : List (String × CategoryDetail)) (total : ℚ) :
    List (String × CategoryDetail) :=
  cats.map fun cd =>
    let percentage : ℚ := if total > 0 then (cd.2.Total / total) * 100 else 0
    (cd.1, { Total := roundToTwo cd.2.Total,
             Count := cd.2.Count,
             Percentage := roundToTwo percentage })

/-- `AnalyticsService.getDateRangeFromTransactions` (same scan as
`JSONRepository.GetDateRange`). -/
def getDateRangeFromTransactions (txs : List Transaction) :
    Except DomainError (CalDate × CalDate) :=
  if txs = [] then .error .ErrNoTransactions
  else JSONRepository.dateRangeScan txs

/-- `AnalyticsService.calculateMonthsBetween`:
`(endYear-startYear)*12 + (endMonth-startMonth) + 1`. -/
def calculateMonthsBetween (start endd : CalDate) : ℤ :=
  ((endd.y : ℤ) - (start.y : ℤ)) * 12 + ((endd.m : ℤ) - (start.m : ℤ)) + 1

/-- `AnalyticsService.GetCategorySummary`. -/
def GetCategorySummary (repo : JSONRepository) : Except DomainError CategorySummary := do
  let transactions ← repo.GetAll
  let st := aggregateTransactions transactions
  let incomeMap := calculatePercentages st.incomeCats st.totalIncome
  let expenseMap := calculatePercentages st.expenseCats st.totalExpenses
  let range ← getDateRangeFromTransactions transactions
  let months := calculateMonthsBetween range.1 range.2
  let summary := FinancialSummary.CalculateSavingsRate
    { TotalIncome := roundToTwo st.totalIncome,
      TotalExpenses := roundToTwo st.totalExpenses,
      NetSavings := roundToTwo (st.totalIncome - st.totalExpenses),
      SavingsRate := 0 }
  return { Income := incomeMap, Expenses := expenseMap, Summary := summary,
           Period := { Start := range.1.formatISO, End := range.2.formatISO,
                       Months := months } }

/-- The in-place update a timeline transaction applies to its month's point
(the two `if` branches of `GetTimeline`'s loop body). -/
def timelinePointUpd (tx : Transaction) (p : TimelinePoint) : TimelinePoint :=
  if tx.IsIncome then { p with Income := p.Income + tx.Amount }
  else if tx.IsExpense then { p with Expenses := p.Expenses + tx.AbsoluteAmount }
  else p

/-- Insert-or-update of the month entry for key `k` (Go's
"initialize month if not exists" followed by the aggregation), keeping
first-encounter order. -/
def timelineInsert : List (String × TimelinePoint) → String → Transaction →
    List (String × TimelinePoint)
  | [], k, tx => [(k, timelinePointUpd tx ⟨k, 0, 0, 0⟩)]
  | (k', p) :: rest, k, tx =>
    if k' = k then (k', timelinePointUpd tx p) :: rest
    else (k', p) :: timelineInsert rest k tx

/-- One iteration of `GetTimeline`'s grouping loop: transactions whose date
does not parse are skipped (Go `continue`). -/
def buildStep (acc : List (String × TimelinePoint)) (tx : Transaction) :
    List (String × TimelinePoint) :=
  match tx.GetYearMonth with
  | none => acc
  | some ym => timelineInsert acc ym tx

/-- `GetTimeline`'s grouping loop over all transactions. -/
def buildMonthly (txs : List Transaction) : List (String × TimelinePoint) :=
  txs.foldl buildStep []

/-- The rounding pass `GetTimeline` applies to each month's point. -/
def roundPoint (p : TimelinePoint) : TimelinePoint :=
  let i := roundToTwo p.Income
  let e := roundToTwo p.Expenses
  { Period := p.Period, Income := i, Expenses := e, Net := roundToTwo (i - e) }

/-- Go's `<` on strings: bytewise lexicographic comparison. On well-formed
UTF-8, byte order coincides with code-point order, so it is embedded as
lexicographic order on the character lists. -/
def charListLt : List Char → List Char → Bool
  | [], [] => false
  | [], _ :: _ => true
  | _ :: _, [] => false
  | a :: as, b :: bs =>
    if a < b then true else if b < a then false else charListLt as bs

/-- Go's `<` on strings. -/
def goStrLt (s t : String) : Bool := charListLt s.data t.data

/-- The comparator of `GetTimeline`'s `sort.Slice` call, as the `≤` relation
induced by Go's strict `Period < Period` comparison. Go sorts the map's
randomized iteration order with the strict comparator; since the period keys
are pairwise distinct, the sorted slice is uniquely determined by the map
contents, and sorting the first-encounter association order with this `≤`
yields exactly that slice. -/
def periodLe (a b : TimelinePoint) : Prop := goStrLt b.Period a.Period = false

instance : DecidableRel periodLe := fun a b =>
  inferInstanceAs (Decidable (goStrLt b.Period a.Period = false))

/-- `AnalyticsService.GetTimeline`. -/
def GetTimeline (repo : JSONRepository) : Except DomainError TimelineResponse := do
  let transactions ← repo.GetAll
  let monthly := buildMonthly transactions
  let timeline := (monthly.map fun kp => roundPoint kp.2).insertionSort periodLe
  return { Timeline := timeline, Aggregation := "monthly" }

/-- `AnalyticsService.GetTransactions`. Go leaves `Period.Months` at its zero
value. -/
def GetTransactions (repo : JSONRepository) : Except DomainError TransactionsResponse := do
  let transactions ← repo.GetAll
  let range ← getDateRangeFromTransactions transactions
  return { Transactions := transactions, Count := transactions.length,
           Period := { Start := range.1.formatISO, End := range.2.formatISO,
                       Months := 0 } }

/-! ## Advisory service (`ai_service.go`)

`time.Now()` is embedded as the explicit parameter `now`; the outbound
OpenAI call (`callOpenAI`) is embedded as an oracle `CallResult` parameter
covering every outcome the HTTP call can produce. -/

/-- Round to nearest, ties to even — the rounding Go's `fmt`/`strconv`
fixed-point formatting applies to the decimal digits. -/
def roundHalfEven (x : ℚ) : ℤ :=
  let f := x.floor
  let frac := x - (f : ℚ)
  if frac < 1/2 then f
  else if 1/2 < frac then f + 1
  else if f % 2 = 0 then f else f + 1

/-- Go `fmt.Sprintf` with verb `%.<prec>f` (for the exact decimal values the
claims exercise; binary-float artifacts are out of scope of this embedding). -/
def fmtFixed (prec : Nat) (x : ℚ) : String :=
  let n := roundHalfEven (x * ((10 : ℚ) ^ prec))
  let mag := n.natAbs
  (if x < 0 then "-" else "") ++ toString (mag / 10 ^ prec) ++ "." ++ padNum prec (mag % 10 ^ prec)

/-- `service.AdviceRequest`. -/
structure AdviceRequest where
  Context : String
  Category : String
  deriving DecidableEq, Repr

/-- `service.AdviceResponse`. `Timestamp` holds the RFC3339 rendering of the
invocation time. -/
structure AdviceResponse where
  Advice : String
  Insights : List String
  Recommendations : List String
  Timestamp : String
  deriving DecidableEq, Repr

/-- `AIService.getDefaultInsights`. The expense map is consumed in the order
the `CategorySummary` presents it (Go: randomized map iteration order). -/
def getDefaultInsights (summary : CategorySummary) : List String :=
  let savingsRate := summary.Summary.SavingsRate
  let bandInsight :=
    if savingsRate > 20 then
      "Excellent savings rate of " ++ fmtFixed 1 savingsRate ++
        "% - you\x27re saving more than the recommended 20%"
    else if savingsRate > 10 then
      "Your savings rate of " ++ fmtFixed 1 savingsRate ++
        "% is on track - aim for 20% for optimal financial health"
    else if savingsRate > 0 then
      "Your savings rate of " ++ fmtFixed 1 savingsRate ++
        "% has room for improvement - consider cutting discretionary spending"
    else
      "You\x27re currently spending more than you earn - immediate action needed to avoid debt"
  let largest := summary.Expenses.foldl
    (fun (acc : String × ℚ) cd => if cd.2.Total > acc.2 then (cd.1, cd.2.Total) else acc)
    ("", 0)
  let largestInsight :=
    if largest.1 ≠ "" then
      ["Your largest expense is " ++ largest.1 ++ " at $" ++ fmtFixed 2 largest.2 ++
        " (" ++ fmtFixed 1 ((largest.2 / summary.Summary.TotalExpenses) * 100) ++
        "% of spending)"]
    else []
  let monthlyExpenses := summary.Summary.TotalExpenses / (summary.Period.Months : ℚ)
  [bandInsight] ++ largestInsight ++
    ["Average monthly expenses: $" ++ fmtFixed 2 monthlyExpenses ++ " over " ++
      toString summary.Period.Months ++ " months"]

/-- `AIService.getDefaultRecommendations`. -/
def getDefaultRecommendations (summary : CategorySummary) : List String :=
  let base :=
    if summary.Summary.SavingsRate < 20 then
      ["Set up automatic transfers to savings account to reach a 20% savings rate"]
    else []
  let discretionaryTotal := summary.Expenses.foldl
    (fun (acc : ℚ) cd =>
      if cd.1 = "dining" ∨ cd.1 = "entertainment" ∨ cd.1 = "shopping" ∨
          cd.1 = "subscriptions" then
        acc + cd.2.Total
      else acc)
    0
  let discRec :=
    if discretionaryTotal > summary.Summary.TotalExpenses * (2/10) then
      ["Consider reducing discretionary spending (dining, entertainment, shopping) - currently $"
        ++ fmtFixed 2 discretionaryTotal]
    else []
  base ++ discRec ++
    ["Track your spending weekly to identify patterns and opportunities to save",
     "Build an emergency fund covering 3-6 months of expenses"]

/-- `AIService.getMockAdvice`: the deterministic heuristic fallback. `now`
embeds `time.Now().Format(time.RFC3339)`. -/
def getMockAdvice (summary : CategorySummary) (_req : AdviceRequest) (now : String) :
    AdviceResponse :=
  let insights := getDefaultInsights summary
  let recommendations := getDefaultRecommendations summary
  let advice :=
    "Based on your financial data analysis:\n\nINSIGHTS:\n" ++
    String.join (insights.map fun i => "- " ++ i ++ "\n") ++
    "\nRECOMMENDATIONS:\n" ++
    String.join (recommendations.map fun rc => "- " ++ rc ++ "\n") ++
    "\nPOSITIVE:\nYou\x27re tracking your finances, which is a great first step toward financial wellness!"
  { Advice := advice, Insights := insights, Recommendations := recommendations,
    Timestamp := now }

/-- Go helper `splitLines`, char by char. -/
def splitLinesAux : List Char → List Char → List String
  | [], current => if current = [] then [] else [String.mk current.reverse]
  | c :: cs, current =>
    if c = '\n' then String.mk current.reverse :: splitLinesAux cs []
    else splitLinesAux cs (c :: current)

/-- Go helper `splitLines`. -/
def splitLines (s : String) : List String := splitLinesAux s.data []

/-- The whitespace set of Go helper `trim`. -/
def isSpaceChar (c : Char) : Bool := c = ' ' ∨ c = '\t' ∨ c = '\n' ∨ c = '\r'

/-- Go helper `trim`. -/
def trim (s : String) : String :=
  String.mk ((s.data.dropWhile isSpaceChar).reverse.dropWhile isSpaceChar).reverse

/-- Go helper `startsWith`. -/
def startsWith (s pfx : String) : Bool := pfx.data.isPrefixOf s.data

/-- Go helpers `contains`/`findSubstring`: substring occurrence. -/
def containsSub (s sub : String) : Bool :=
  s.data.tails.any fun t => sub.data.isPrefixOf t

/-- Go helper `trimPrefix` (renamed `trimPfx` here). -/
def trimPfx (s pfx : String) : String :=
  if startsWith s pfx then String.mk (s.data.drop pfx.data.length) else s

/-- The accumulator of `parseAdviceResponse`'s line scan: collected insights,
collected recommendations, active section tag. -/
structure PState where
  insightsAcc : List String
  recsAcc : List String
  sec : String

/-- One line of `AIService.parseAdviceResponse`'s scan. -/
def parseLine (st : PState) (line : String) : PState :=
  let trimmed := trim line
  if trimmed = "" then st
  else if containsSub trimmed "INSIGHTS:" then { st with sec := "insights" }
  else if containsSub trimmed "RECOMMENDATIONS:" then { st with sec := "recommendations" }
  else if containsSub trimmed "POSITIVE:" then { st with sec := "positive" }
  else if startsWith trimmed "-" ∨ startsWith trimmed "•" then
    let item := trim (trimPfx (trimPfx trimmed "-") "•")
    if st.sec = "insights" then { st with insightsAcc := st.insightsAcc ++ [item] }
    else if st.sec = "recommendations" then { st with recsAcc := st.recsAcc ++ [item] }
    else st
  else st

/-- `AIService.parseAdviceResponse`, with the heuristic backfill for empty
sections. -/
def parseAdviceResponse (advice : String) (summary : CategorySummary) (now : String) :
    AdviceResponse :=
  let st := (splitLines advice).foldl parseLine ⟨[], [], ""⟩
  let insights := if st.insightsAcc = [] then getDefaultInsights summary else st.insightsAcc
  let recommendations := if st.recsAcc = [] then getDefaultRecommendations summary else st.recsAcc
  { Advice := advice, Insights := insights, Recommendations := recommendations,
    Timestamp := now }

/-- Every outcome `callOpenAI` can produce: the model's text on HTTP 200 with
a parseable payload and at least one choice, or one of the failure shapes.
`canceled` is the error `http.Client.Do` returns when the caller's context is
cancelled; the others embed the non-200 status mapping and the malformed- or
error-payload cases. -/
inductive CallResult where
  | success (text : String)
  | canceled
  | rateLimited
  | unauthorized
  | unavailable
  | upstreamFailure
  deriving DecidableEq, Repr

/-- `AIService.GetFinancialAdvice`. The pair's second component is the Go
function's `error` return value: the source returns `nil` on every path —
when no API key is configured it returns the heuristic result directly, and
when `callOpenAI` fails (for any reason, cancellation included) it returns
`s.getMockAdvice(summary, req), nil`. -/
def GetFinancialAdvice (apiKey : String) (outcome : CallResult)
    (summary : CategorySummary) (req : AdviceRequest) (now : String) :
    AdviceResponse × Option CallResult :=
  if apiKey = "" then (getMockAdvice summary req now, none)
  else
    match outcome with
    | .success text => (parseAdviceResponse text summary now, none)
    | _ => (getMockAdvice summary req now, none)

/-! ## Shared helpers, fixtures and concrete stores used by the theorems -/

instance {ε α : Type} [DecidableEq ε] [DecidableEq α] : DecidableEq (Except ε α) :=
  fun x y =>
    match x, y with
    | .ok u, .ok v => if h : u = v then .isTrue (by rw [h]) else .isFalse (by simp [h])
    | .error u, .error v => if h : u = v then .isTrue (by rw [h]) else .isFalse (by simp [h])
    | .ok _, .error _ => .isFalse (by simp)
    | .error _, .ok _ => .isFalse (by simp)

/-- The spec's eight-transaction fixture (§8), with expenses stored as
negative signed amounts per the data-model convention. -/
def fixtureTxs : List Transaction :=
  [⟨"2024-01-01", 2800, "salary", "Bi-weekly salary", "income"⟩,
   ⟨"2024-01-02", -1200, "rent", "Monthly rent", "expense"⟩,
   ⟨"2024-01-03", -85, "groceries", "Whole Foods", "expense"⟩,
   ⟨"2024-01-05", -45, "utilities", "Electric bill", "expense"⟩,
   ⟨"2024-01-16", 2800, "salary", "Bi-weekly salary", "income"⟩,
   ⟨"2024-02-01", 2800, "salary", "Bi-weekly salary", "income"⟩,
   ⟨"2024-02-02", -1200, "rent", "Monthly rent", "expense"⟩,
   ⟨"2024-02-04", -110, "groceries", "Costco", "expense"⟩]

/-- The store loaded with the fixture. -/
def fixtureRepo : JSONRepository := ⟨fixtureTxs⟩

/-- Sum of the `Percentage` fields of a category map. -/
def sumPercentages (l : List (String × CategoryDetail)) : ℚ :=
  (l.map fun cd => cd.2.Percentage).sum

/-- A one-expense-category summary used to instantiate advisory theorems. -/
def sampleSummary : CategorySummary :=
  { Income := [("salary", ⟨8400, 3, 100⟩)],
    Expenses := [("rent", ⟨2400, 2, 90.91⟩)],
    Summary := ⟨8400, 2640, 5760, 68.57⟩,
    Period := ⟨"2024-01-01", "2024-02-04", 2⟩ }

/-- A summary whose two expense categories tie for the largest total. -/
def tieSummary : CategorySummary :=
  { Income := [("salary", ⟨100, 1, 100⟩)],
    Expenses := [("a", ⟨10, 1, 50⟩), ("b", ⟨10, 1, 50⟩)],
    Summary := ⟨100, 20, 80, 80⟩,
    Period := ⟨"2024-01-01", "2024-02-04", 2⟩ }

/-- `tieSummary` with its expense map presented in the other iteration order. -/
def tieSummarySwap : CategorySummary :=
  { tieSummary with Expenses := [("b", ⟨10, 1, 50⟩), ("a", ⟨10, 1, 50⟩)] }

/-- A summary whose savings rate is exactly 0. -/
def zeroRateSummary : CategorySummary :=
  { Income := [], Expenses := [],
    Summary := ⟨100, 100, 0, 0⟩,
    Period := ⟨"2024-01-01", "2024-01-31", 1⟩ }

/-- A summary whose savings rate is 15, inside the on-track band. -/
def midRateSummary : CategorySummary :=
  { Income := [], Expenses := [],
    Summary := ⟨100, 85, 15, 15⟩,
    Period := ⟨"2024-01-01", "2024-01-31", 1⟩ }

/-- A sample advice request. -/
def sampleReq : AdviceRequest := ⟨"general", ""⟩

/-! ## Claim C1 — failure contract of `GetFinancialAdvice` -/

/-- Claim C1 as frozen is false on the code: on caller cancellation,
`GetFinancialAdvice` does not fail — `callOpenAI`'s cancellation error is
absorbed like every other error (`if err != nil { return s.getMockAdvice(summary, req), nil }`),
the heuristic fallback IS engaged, and the returned error is `nil`. -/
theorem c1_counterexample :
    (GetFinancialAdvice "sk-key" .canceled sampleSummary sampleReq "2024-03-01T00:00:00Z").2
        = none ∧
    (GetFinancialAdvice "sk-key" .canceled sampleSummary sampleReq "2024-03-01T00:00:00Z").1
        = getMockAdvice sampleSummary sampleReq "2024-03-01T00:00:00Z" := by
  constructor <;> rfl

/-- Claim C1 (amended): `GetFinancialAdvice` never fails — its error result is
`nil` on every path — and on every non-success outcome of the external model
call, cancellation included, the heuristic result is returned. -/
theorem c1_never_fails (apiKey : String) (outcome : CallResult)
    (summary : CategorySummary) (req : AdviceRequest) (now : String) :
    (GetFinancialAdvice apiKey outcome summary req now).2 = none ∧
    ((∀ t, outcome ≠ CallResult.success t) →
      (GetFinancialAdvice apiKey outcome summary req now).1 =
        getMockAdvice summary req now) := by
  unfold GetFinancialAdvice
  by_cases h : apiKey = ""
  · simp [h]
  · cases outcome <;> simp [h]

/-- Witness for `c1_never_fails` at a concrete non-success outcome. -/
theorem c1_never_fails_witness :
    (GetFinancialAdvice "sk-w" .unavailable tieSummary sampleReq "2024-03-02T00:00:00Z").2
        = none ∧
    (GetFinancialAdvice "sk-w" .unavailable tieSummary sampleReq "2024-03-02T00:00:00Z").1
        = getMockAdvice tieSummary sampleReq "2024-03-02T00:00:00Z" :=
  ⟨(c1_never_fails "sk-w" .unavailable tieSummary sampleReq "2024-03-02T00:00:00Z").1,
   (c1_never_fails "sk-w" .unavailable tieSummary sampleReq "2024-03-02T00:00:00Z").2
     (fun _ h => nomatch h)⟩

/-! ## Claim C2 — the eight-transaction fixture -/

set_option maxRecDepth 100000

/-- Claim C2: on the fixture, `GetCategorySummary` yields totalIncome 8400,
totalExpenses 2640, netSavings 5760, savingsRate 68.57 and a 2-month period,
and `GetTimeline` yields exactly the two ascending monthly points
2024-01 (5600, 1330, 4270) and 2024-02 (2800, 1310, 1490). -/
theorem c2_fixture :
    (GetCategorySummary fixtureRepo).map
        (fun s => (s.Summary.TotalIncome, s.Summary.TotalExpenses,
                   s.Summary.NetSavings, s.Summary.SavingsRate, s.Period.Months)) =
      .ok (8400, 2640, 5760, 68.57, 2) ∧
    (GetTimeline fixtureRepo).map (fun r => r.Timeline) =
      .ok [⟨"2024-01", 5600, 1330, 4270⟩, ⟨"2024-02", 2800, 1310, 1490⟩] := by
  constructor <;> decide

/-! ## Claim C5 — the empty store fails everywhere with `NoTransactions` -/

/-- Claim C5: with zero transactions in the store, `GetAll`,
`GetCategorySummary`, `GetTimeline` and `GetTransactions` all fail with
`ErrNoTransactions`. -/
theorem c5_empty_store_fails (r : JSONRepository) (h : r.transactions = []) :
    r.GetAll = .error .ErrNoTransactions ∧
    GetCategorySummary r = .error .ErrNoTransactions ∧
    GetTimeline r = .error .ErrNoTransactions ∧
    GetTransactions r = .error .ErrNoTransactions := by
  obtain ⟨txs⟩ := r
  simp only at h
  subst h
  refine ⟨rfl, rfl, rfl, rfl⟩

/-- Witness for `c5_empty_store_fails` at the concrete empty store. -/
theorem c5_empty_store_fails_witness :
    (⟨[]⟩ : JSONRepository).GetAll = .error .ErrNoTransactions ∧
    GetCategorySummary ⟨[]⟩ = .error .ErrNoTransactions ∧
    GetTimeline ⟨[]⟩ = .error .ErrNoTransactions ∧
    GetTransactions ⟨[]⟩ = .error .ErrNoTransactions :=
  c5_empty_store_fails ⟨[]⟩ rfl

/-! ## Claim C7 — determinism of the heuristic fallback -/

/-- Claim C7 as frozen is false on the code: two invocations of
`getMockAdvice` on the identical `CategorySummary` need not be byte-identical.
The `Timestamp` field is `time.Now()` at invocation, and the largest-expense
insight depends on Go's randomized map iteration order when two expense
categories tie for the largest total: the same map contents (`tieSummary`
and `tieSummarySwap` are permutations of each other) yield different
insight lists. -/
theorem c7_counterexample :
    tieSummarySwap.Expenses.Perm tieSummary.Expenses ∧
    (getMockAdvice tieSummary sampleReq "2024-01-01T00:00:00Z").Insights ≠
      (getMockAdvice tieSummarySwap sampleReq "2024-01-01T00:00:00Z").Insights ∧
    (getMockAdvice tieSummary sampleReq "2024-01-01T00:00:00Z").Timestamp ≠
      (getMockAdvice tieSummary sampleReq "2024-01-01T00:00:01Z").Timestamp := by
  refine ⟨List.Perm.swap _ _ _, ?_, ?_⟩ <;> decide

/-- Claim C7 (amended): the heuristic generator is deterministic in the
`CategorySummary` contents together with the expense-map iteration order and
the invocation time: the advice text, insights and recommendations do not
depend on the invocation time, and the timestamp field equals the invocation
time. (Across invocations the timestamp varies, and when two expense
categories tie for the largest total the iteration order can change the
largest-expense insight, as the counterexample shows.) -/
theorem c7_deterministic_components (summary : CategorySummary)
    (req : AdviceRequest) (t1 t2 : String) :
    (getMockAdvice summary req t1).Advice = (getMockAdvice summary req t2).Advice ∧
    (getMockAdvice summary req t1).Insights = (getMockAdvice summary req t2).Insights ∧
    (getMockAdvice summary req t1).Recommendations =
      (getMockAdvice summary req t2).Recommendations ∧
    (getMockAdvice summary req t1).Timestamp = t1 :=
  ⟨rfl, rfl, rfl, rfl⟩

/-! ## Claim C8 — savings-rate bands of the first heuristic insight -/

/-- Claim C8 as frozen is false on the code at the band boundaries: at
savings rate exactly 0 the code's `else` branch fires (`savingsRate > 0`
fails), producing the overspending insight — which states no rate — where
the claim requires the "room to improve" insight stating the exact rate.
(Rate exactly 10 similarly lands in "room to improve", not "on track".) -/
theorem c8_counterexample :
    zeroRateSummary.Summary.SavingsRate = 0 ∧
    (getDefaultInsights zeroRateSummary).head? =
      some "You\x27re currently spending more than you earn - immediate action needed to avoid debt" := by
  constructor <;> decide

/-- Claim C8 (amended): the first insight classifies the savings rate by the
code's strict bands — greater than 20 excellent, greater than 10 up to 20
on-track, greater than 0 up to 10 room-to-improve, and 0 or below
overspending — stating the rate to one decimal in the first three bands and
no rate in the overspending band. -/
theorem c8_savings_bands (summary : CategorySummary) :
    (20 < summary.Summary.SavingsRate →
      (getDefaultInsights summary).head? =
        some ("Excellent savings rate of " ++ fmtFixed 1 summary.Summary.SavingsRate ++
          "% - you\x27re saving more than the recommended 20%")) ∧
    (10 < summary.Summary.SavingsRate ∧ summary.Summary.SavingsRate ≤ 20 →
      (getDefaultInsights summary).head? =
        some ("Your savings rate of " ++ fmtFixed 1 summary.Summary.SavingsRate ++
          "% is on track - aim for 20% for optimal financial health")) ∧
    (0 < summary.Summary.SavingsRate ∧ summary.Summary.SavingsRate ≤ 10 →
      (getDefaultInsights summary).head? =
        some ("Your savings rate of " ++ fmtFixed 1 summary.Summary.SavingsRate ++
          "% has room for improvement - consider cutting discretionary spending")) ∧
    (summary.Summary.SavingsRate ≤ 0 →
      (getDefaultInsights summary).head? =
        some "You\x27re currently spending more than you earn - immediate action needed to avoid debt") := by
  refine ⟨fun h => ?_, fun h => ?_, fun h => ?_, fun h => ?_⟩ <;>
    unfold getDefaultInsights <;>
    simp only [List.cons_append, List.head?_cons]
  · rw [if_pos h]
  · rw [if_neg (by linarith [h.2]), if_pos h.1]
  · rw [if_neg (by linarith [h.2]), if_neg (by linarith [h.2]), if_pos h.1]
  · rw [if_neg (by linarith), if_neg (by linarith), if_neg (by linarith)]

/-- Witness for `c8_savings_bands` at a summary with rate 15 (on-track band). -/
theorem c8_savings_bands_witness :
    10 < midRateSummary.Summary.SavingsRate ∧ midRateSummary.Summary.SavingsRate ≤ 20 ∧
    (getDefaultInsights midRateSummary).head? =
      some "Your savings rate of 15.0% is on track - aim for 20% for optimal financial health" :=
  ⟨by decide, by decide,
   ((c8_savings_bands midRateSummary).2.1
       ⟨by decide, by decide⟩).trans
     (by decide)⟩

/-! ## Claim C4 — `GetByDateRange` contract -/

/-- `dateWithin` holds exactly on transactions whose date parses into the
inclusive `[start, end]` range. -/
theorem dateWithin_eq_true_iff (s e : CalDate) (tx : Transaction) :
    JSONRepository.dateWithin s e tx = true ↔
      ∃ d, tx.ParseDate = some d ∧ s.key ≤ d.key ∧ d.key ≤ e.key := by
  unfold JSONRepository.dateWithin
  cases h : tx.ParseDate <;> simp [h]

/-- Claim C4: `GetByDateRange(start, end)` fails with `InvalidDateRange` iff
`start > end`; otherwise it returns exactly the stored transactions whose
parsed date lies in the inclusive range, failing with `NoTransactions` when
the filtered set is empty. -/
theorem c4_getByDateRange_spec (r : JSONRepository) (s e : CalDate) :
    (r.GetByDateRange s e = .error .ErrInvalidDateRange ↔ e.key < s.key) ∧
    (s.key ≤ e.key →
      (r.GetByDateRange s e =
        if r.transactions.filter (JSONRepository.dateWithin s e) = []
        then .error .ErrNoTransactions
        else .ok (r.transactions.filter (JSONRepository.dateWithin s e))) ∧
      ∀ l, r.GetByDateRange s e = .ok l →
        ∀ tx, tx ∈ l ↔ tx ∈ r.transactions ∧
          ∃ d, tx.ParseDate = some d ∧ s.key ≤ d.key ∧ d.key ≤ e.key) := by
  constructor
  · by_cases h : e.key < s.key
    · simp [JSONRepository.GetByDateRange, h]
    · simp only [JSONRepository.GetByDateRange, if_neg h]
      constructor
      · intro hh
        split at hh <;> simp at hh
      · intro hh
        exact absurd hh h
  · intro hle
    have h : ¬ e.key < s.key := not_lt.mpr hle
    refine ⟨by simp [JSONRepository.GetByDateRange, h], ?_⟩
    intro l hl tx
    simp only [JSONRepository.GetByDateRange, if_neg h] at hl
    split at hl
    · simp at hl
    · cases Except.ok.inj hl
      rw [List.mem_filter, dateWithin_eq_true_iff]

/-- Witness for `c4_getByDateRange_spec` on the fixture store with a
mid-January through early-February range. -/
theorem c4_getByDateRange_spec_witness :
    (CalDate.key ⟨2024, 1, 3⟩ ≤ CalDate.key ⟨2024, 2, 2⟩) ∧
    fixtureRepo.GetByDateRange ⟨2024, 1, 3⟩ ⟨2024, 2, 2⟩ =
      .ok [⟨"2024-01-03", -85, "groceries", "Whole Foods", "expense"⟩,
           ⟨"2024-01-05", -45, "utilities", "Electric bill", "expense"⟩,
           ⟨"2024-01-16", 2800, "salary", "Bi-weekly salary", "income"⟩,
           ⟨"2024-02-01", 2800, "salary", "Bi-weekly salary", "income"⟩,
           ⟨"2024-02-02", -1200, "rent", "Monthly rent", "expense"⟩] ∧
    fixtureRepo.GetByDateRange ⟨2024, 2, 2⟩ ⟨2024, 1, 3⟩ =
      .error .ErrInvalidDateRange :=
  ⟨by decide,
   by
    have := ((c4_getByDateRange_spec fixtureRepo ⟨2024, 1, 3⟩ ⟨2024, 2, 2⟩).2
      (by decide)).1
    rw [this]
    decide,
   by
    have := (c4_getByDateRange_spec fixtureRepo ⟨2024, 2, 2⟩ ⟨2024, 1, 3⟩).1
    exact this.mpr (by decide)⟩

/-! ## Claim C10 — `Validate` and the `InvalidAmount` error -/

/-- Claim C10: for a transaction with a parseable date, a non-empty category
and a type of "income" or "expense", `Validate` returns `ErrInvalidAmount`
iff the type is "income" with a strictly negative amount or "expense" with a
strictly positive amount; an amount of exactly 0 is accepted for both types. -/
theorem c10_validate_invalid_amount (t : Transaction)
    (hd : (parseDateString t.Date).isSome = true)
    (hc : t.Category ≠ "")
    (ht : t.«Type» = "income" ∨ t.«Type» = "expense") :
    (t.Validate = some .ErrInvalidAmount ↔
      (t.«Type» = "income" ∧ t.Amount < 0) ∨ (t.«Type» = "expense" ∧ 0 < t.Amount)) ∧
    (t.Amount = 0 → t.Validate = none) := by
  have hne : t.Date ≠ "" := by
    intro h0
    rw [h0] at hd
    have : parseDateString "" = none := by decide
    rw [this] at hd
    simp at hd
  have hnone : ¬ ((parseDateString t.Date).isNone = true) := by
    cases hx : parseDateString t.Date
    · rw [hx] at hd; simp at hd
    · simp [hx]
  unfold Transaction.Validate
  rw [if_neg hne, if_neg hnone, if_neg hc]
  rcases ht with hI | hE
  · have hnotboth : ¬ (t.«Type» ≠ "income" ∧ t.«Type» ≠ "expense") := by
      simp [hI]
    rw [if_neg hnotboth]
    have hnexp : ¬ (t.«Type» = "expense" ∧ t.Amount > 0) := by
      rintro ⟨he, -⟩
      rw [hI] at he
      exact absurd he (by decide)
    constructor
    · by_cases ha : t.Amount < 0
      · rw [if_pos ⟨hI, ha⟩]
        simp [hI, ha]
      · rw [if_neg (fun hand => ha hand.2), if_neg hnexp]
        simp [hI, ha]
    · intro h0
      rw [if_neg (fun hand => by rw [h0] at hand; exact lt_irrefl 0 hand.2),
          if_neg hnexp]
  · have hnotboth : ¬ (t.«Type» ≠ "income" ∧ t.«Type» ≠ "expense") := by
      simp [hE]
    rw [if_neg hnotboth]
    have hninc : ¬ (t.«Type» = "income" ∧ t.Amount < 0) := by
      rintro ⟨he, -⟩
      rw [hE] at he
      exact absurd he (by decide)
    rw [if_neg hninc]
    constructor
    · by_cases ha : 0 < t.Amount
      · rw [if_pos ⟨hE, ha⟩]
        simp [hE, ha]
      · rw [if_neg (fun hand => ha hand.2)]
        simp [hE, ha]
    · intro h0
      rw [if_neg (fun hand => by rw [h0] at hand; exact lt_irrefl 0 hand.2)]

/-- Witness for `c10_validate_invalid_amount`: an expense with a positive
amount is rejected with `ErrInvalidAmount`, and a zero-amount expense is
accepted. -/
theorem c10_validate_invalid_amount_witness :
    (Transaction.Validate ⟨"2024-01-02", 1200, "rent", "r", "expense"⟩ =
      some .ErrInvalidAmount) ∧
    (Transaction.Validate ⟨"2024-01-02", 0, "rent", "r", "expense"⟩ = none) :=
  ⟨((c10_validate_invalid_amount ⟨"2024-01-02", 1200, "rent", "r", "expense"⟩
      (by decide) (by decide) (Or.inr rfl)).1).mpr (Or.inr ⟨rfl, by decide⟩),
   ((c10_validate_invalid_amount ⟨"2024-01-02", 0, "rent", "r", "expense"⟩
      (by decide) (by decide) (Or.inr rfl)).2) rfl⟩

/-! ## Claim C6 — `GetByDateRange` over the full `GetDateRange` bounds -/

/-- A two-transaction store in which one record's date does not parse. -/
def c6Repo : JSONRepository :=
  ⟨[⟨"2024-01-05", 100, "salary", "s", "income"⟩,
    ⟨"not-a-date", -50, "rent", "r", "expense"⟩]⟩

/-- Claim C6 as frozen is false on the code: both `GetDateRange` and
`GetByDateRange` skip records whose date does not parse, while `GetAll`
returns every stored record. On a non-empty store containing one good and
one unparsable date, `GetByDateRange(minDate, maxDate)` returns 1 record
but `GetAll` returns 2. -/
theorem c6_counterexample :
    c6Repo.GetDateRange = .ok (⟨2024, 1, 5⟩, ⟨2024, 1, 5⟩) ∧
    (c6Repo.GetByDateRange ⟨2024, 1, 5⟩ ⟨2024, 1, 5⟩).map List.length = .ok 1 ∧
    c6Repo.GetAll.map List.length = .ok 2 := by
  refine ⟨?_, ?_, ?_⟩ <;> decide

/-- Every date seen by the `GetDateRange` scan loop lies within the bounds it
returns, and the loop only widens the running bounds. -/
theorem dateRangeLoop_bounds (txs : List Transaction) (mn mx : CalDate) :
    (JSONRepository.dateRangeLoop txs mn mx).1.key ≤ mn.key ∧
    mx.key ≤ (JSONRepository.dateRangeLoop txs mn mx).2.key ∧
    ∀ tx ∈ txs, ∀ d, tx.ParseDate = some d →
      (JSONRepository.dateRangeLoop txs mn mx).1.key ≤ d.key ∧
      d.key ≤ (JSONRepository.dateRangeLoop txs mn mx).2.key := by
  induction txs generalizing mn mx with
  | nil => simp [JSONRepository.dateRangeLoop]
  | cons tx rest ih =>
    unfold JSONRepository.dateRangeLoop
    cases hp : tx.ParseDate with
    | none =>
      refine ⟨(ih mn mx).1, (ih mn mx).2.1, ?_⟩
      intro t ht d hd
      rcases List.mem_cons.mp ht with rfl | hmem
      · rw [hp] at hd; cases hd
      · exact (ih mn mx).2.2 t hmem d hd
    | some d0 =>
      have hmn1 : (if d0.key < mn.key then d0 else mn).key ≤ mn.key := by
        split <;> omega
      have hmn2 : (if d0.key < mn.key then d0 else mn).key ≤ d0.key := by
        split <;> omega
      have hmx1 : mx.key ≤ (if mx.key < d0.key then d0 else mx).key := by
        split <;> omega
      have hmx2 : d0.key ≤ (if mx.key < d0.key then d0 else mx).key := by
        split <;> omega
      obtain ⟨i1, i2, i3⟩ :=
        ih (if d0.key < mn.key then d0 else mn) (if mx.key < d0.key then d0 else mx)
      refine ⟨le_trans i1 hmn1, le_trans hmx1 i2, ?_⟩
      intro t ht d hd
      rcases List.mem_cons.mp ht with rfl | hmem
      · rw [hp] at hd
        injection hd with hd'
        subst hd'
        exact ⟨le_trans i1 hmn2, le_trans hmx2 i2⟩
      · exact i3 t hmem d hd

/-- Every parseable date in the scanned list lies within the bounds
`dateRangeScan` returns. -/
theorem dateRangeScan_bounds (txs : List Transaction) (mn mx : CalDate)
    (h : JSONRepository.dateRangeScan txs = .ok (mn, mx)) :
    ∀ tx ∈ txs, ∀ d, tx.ParseDate = some d → mn.key ≤ d.key ∧ d.key ≤ mx.key := by
  induction txs with
  | nil => simp [JSONRepository.dateRangeScan] at h
  | cons tx rest ih =>
    unfold JSONRepository.dateRangeScan at h
    cases hp : tx.ParseDate with
    | none =>
      rw [hp] at h
      intro t ht d hd
      rcases List.mem_cons.mp ht with rfl | hmem
      · rw [hp] at hd; cases hd
      · exact ih h t hmem d hd
    | some d0 =>
      rw [hp] at h
      have hpair := Except.ok.inj h
      obtain ⟨rfl, rfl⟩ : (JSONRepository.dateRangeLoop rest d0 d0).1 = mn ∧
          (JSONRepository.dateRangeLoop rest d0 d0).2 = mx := by
        rw [hpair]
        exact ⟨rfl, rfl⟩
      obtain ⟨B1, B2, B3⟩ := dateRangeLoop_bounds rest d0 d0
      intro t ht d hd
      rcases List.mem_cons.mp ht with rfl | hmem
      · rw [hp] at hd
        injection hd with hd'
        subst hd'
        exact ⟨B1, B2⟩
      · exact B3 t hmem d hd

/-- Claim C6 (amended): for every non-empty store all of whose transaction
dates parse, `GetByDateRange` over the `GetDateRange` bounds returns the
same list as `GetAll`, hence the same count. (With an unparsable date in
the store the counts differ, as the counterexample shows.) -/
theorem c6_range_count (r : JSONRepository) (mn mx : CalDate)
    (hne : r.transactions ≠ [])
    (hp : ∀ tx ∈ r.transactions, (tx.ParseDate).isSome = true)
    (hr : r.GetDateRange = .ok (mn, mx)) :
    r.GetByDateRange mn mx = r.GetAll ∧
    (r.GetByDateRange mn mx).map List.length = r.GetAll.map List.length := by
  have hGA : r.GetAll = .ok r.transactions := by
    unfold JSONRepository.GetAll
    rw [if_neg hne]
  have hscan : JSONRepository.dateRangeScan r.transactions = .ok (mn, mx) := by
    unfold JSONRepository.GetDateRange at hr
    rw [if_neg hne] at hr
    exact hr
  have hbounds := dateRangeScan_bounds _ _ _ hscan
  have hfilter : r.transactions.filter (JSONRepository.dateWithin mn mx) =
      r.transactions := by
    apply List.filter_eq_self.mpr
    intro tx htx
    rw [dateWithin_eq_true_iff]
    cases hx : tx.ParseDate with
    | none =>
      have := hp tx htx
      rw [hx] at this
      simp at this
    | some d => exact ⟨d, rfl, hbounds tx htx d hx⟩
  obtain ⟨t0, ht0⟩ : ∃ t, t ∈ r.transactions := by
    cases hc : r.transactions with
    | nil => exact absurd hc hne
    | cons a l => exact ⟨a, hc ▸ List.mem_cons_self a l⟩
  have hps := hp t0 ht0
  obtain ⟨d0, hd0⟩ := Option.isSome_iff_exists.mp hps
  have hb := hbounds t0 ht0 d0 hd0
  have hGBR : r.GetByDateRange mn mx = .ok r.transactions := by
    unfold JSONRepository.GetByDateRange
    rw [if_neg (not_lt.mpr (le_trans hb.1 hb.2))]
    simp only [hfilter]
    rw [if_neg hne]
  rw [hGBR, hGA]
  exact ⟨rfl, rfl⟩

/-- Witness for `c6_range_count` on the fixture store. -/
theorem c6_range_count_witness :
    fixtureRepo.transactions ≠ [] ∧
    (∀ tx ∈ fixtureRepo.transactions, (tx.ParseDate).isSome = true) ∧
    fixtureRepo.GetDateRange = .ok (⟨2024, 1, 1⟩, ⟨2024, 2, 4⟩) ∧
    fixtureRepo.GetByDateRange ⟨2024, 1, 1⟩ ⟨2024, 2, 4⟩ = fixtureRepo.GetAll :=
  ⟨by decide, by decide, by decide,
   (c6_range_count fixtureRepo ⟨2024, 1, 1⟩ ⟨2024, 2, 4⟩
      (by decide) (by decide) (by decide)).1⟩

/-! ## Claim C3 — percentage sums -/

/-- `Rat.floor` agrees with `Int.floor`. -/
theorem ratFloor_eq_intFloor (x : ℚ) : x.floor = ⌊x⌋ :=
  (Rat.floor_def' x).trans Rat.floor_def.symm

/-- `math.Round` is within 1/2 of its argument. -/
theorem mathRound_abs_le (y : ℚ) : |(mathRound y : ℚ) - y| ≤ 1/2 := by
  unfold mathRound
  split
  · rw [ratFloor_eq_intFloor]
    have h1 : (⌊-y + 1/2⌋ : ℚ) ≤ -y + 1/2 := Int.floor_le _
    have h2 : -y + 1/2 - 1 < (⌊-y + 1/2⌋ : ℚ) := Int.sub_one_lt_floor _
    rw [abs_le]
    constructor <;> push_cast <;> linarith
  · rw [ratFloor_eq_intFloor]
    have h1 : (⌊y + 1/2⌋ : ℚ) ≤ y + 1/2 := Int.floor_le _
    have h2 : y + 1/2 - 1 < (⌊y + 1/2⌋ : ℚ) := Int.sub_one_lt_floor _
    rw [abs_le]
    constructor <;> linarith

/-- Rounding to two decimals moves a value by at most 1/200. -/
theorem roundToTwo_abs_le (x : ℚ) : |roundToTwo x - x| ≤ 1/200 := by
  have hrw : roundToTwo x - x = ((mathRound (x * 100) : ℚ) - x * 100) / 100 := by
    unfold roundToTwo
    ring
  rw [hrw, abs_div, abs_of_pos (by norm_num : (0:ℚ) < 100)]
  have := mathRound_abs_le (x * 100)
  rw [div_le_div_iff₀ (by norm_num) (by norm_num)]
  linarith

/-- Sum of the `Total` fields of a category map. -/
def sumTotals (l : List (String × CategoryDetail)) : ℚ :=
  (l.map fun cd => cd.2.Total).sum

/-- `aggregateCategory` adds exactly the transaction's absolute amount to the
sum of the category totals. -/
theorem sumTotals_aggregateCategory (cats : List (String × CategoryDetail))
    (tx : Transaction) :
    sumTotals (aggregateCategory cats tx) = sumTotals cats + tx.AbsoluteAmount := by
  induction cats with
  | nil => simp [aggregateCategory, sumTotals]
  | cons hd tl ih =>
    obtain ⟨k, v⟩ := hd
    unfold aggregateCategory
    by_cases hk : k = tx.Category
    · rw [if_pos hk]
      simp only [sumTotals, List.map_cons, List.sum_cons]
      ring
    · rw [if_neg hk]
      simp only [sumTotals, List.map_cons, List.sum_cons] at ih ⊢
      rw [ih]
      ring

/-- A transaction typed "income" is not typed "expense". -/
theorem isIncome_not_isExpense (tx : Transaction) (h : tx.IsIncome = true) :
    tx.IsExpense = false := by
  have ht : tx.«Type» = "income" := by
    simpa [Transaction.IsIncome] using h
  simp [Transaction.IsExpense, ht]

/-- Invariant of `GetCategorySummary`'s aggregation loop: the running totals
and the sums of the per-category totals track the filtered amount sums. -/
theorem aggState_invariant (txs : List Transaction) (st : AggState) :
    sumTotals (txs.foldl aggStep st).expenseCats =
      sumTotals st.expenseCats +
        ((txs.filter fun tx => tx.IsExpense).map fun tx => tx.AbsoluteAmount).sum ∧
    (txs.foldl aggStep st).totalExpenses =
      st.totalExpenses +
        ((txs.filter fun tx => tx.IsExpense).map fun tx => tx.AbsoluteAmount).sum ∧
    sumTotals (txs.foldl aggStep st).incomeCats =
      sumTotals st.incomeCats +
        ((txs.filter fun tx => tx.IsIncome).map fun tx => tx.AbsoluteAmount).sum ∧
    (txs.foldl aggStep st).totalIncome =
      st.totalIncome +
        ((txs.filter fun tx => tx.IsIncome).map fun tx => tx.Amount).sum := by
  induction txs generalizing st with
  | nil => simp
  | cons tx rest ih =>
    obtain ⟨e1, e2, i1, i2⟩ := ih (aggStep st tx)
    cases hI : tx.IsIncome with
    | true =>
      have hE := isIncome_not_isExpense tx hI
      have hsE : (aggStep st tx).expenseCats = st.expenseCats := by
        unfold aggStep
        rw [if_pos hI]
      have hsTE : (aggStep st tx).totalExpenses = st.totalExpenses := by
        unfold aggStep
        rw [if_pos hI]
      have hsI : (aggStep st tx).incomeCats = aggregateCategory st.incomeCats tx := by
        unfold aggStep
        rw [if_pos hI]
      have hsTI : (aggStep st tx).totalIncome = st.totalIncome + tx.Amount := by
        unfold aggStep
        rw [if_pos hI]
      have hfE : (tx :: rest).filter (fun t => t.IsExpense) =
          rest.filter (fun t => t.IsExpense) := by
        simp [List.filter_cons, hE]
      have hfI : (tx :: rest).filter (fun t => t.IsIncome) =
          tx :: rest.filter (fun t => t.IsIncome) := by
        simp [List.filter_cons, hI]
      rw [List.foldl_cons, hfE, hfI]
      refine ⟨?_, ?_, ?_, ?_⟩
      · rw [e1, hsE]
      · rw [e2, hsTE]
      · rw [List.map_cons, List.sum_cons, i1, hsI, sumTotals_aggregateCategory]
        ring
      · rw [List.map_cons, List.sum_cons, i2, hsTI]
        ring
    | false =>
      have hI' : ¬ (tx.IsIncome = true) := by
        rw [hI]
        exact Bool.false_ne_true
      cases hE : tx.IsExpense with
      | true =>
        have hsE : (aggStep st tx).expenseCats = aggregateCategory st.expenseCats tx := by
          unfold aggStep
          rw [if_neg hI', if_pos hE]
        have hsTE : (aggStep st tx).totalExpenses =
            st.totalExpenses + tx.AbsoluteAmount := by
          unfold aggStep
          rw [if_neg hI', if_pos hE]
        have hsI : (aggStep st tx).incomeCats = st.incomeCats := by
          unfold aggStep
          rw [if_neg hI', if_pos hE]
        have hsTI : (aggStep st tx).totalIncome = st.totalIncome := by
          unfold aggStep
          rw [if_neg hI', if_pos hE]
        have hfE : (tx :: rest).filter (fun t => t.IsExpense) =
            tx :: rest.filter (fun t => t.IsExpense) := by
          simp [List.filter_cons, hE]
        have hfI : (tx :: rest).filter (fun t => t.IsIncome) =
            rest.filter (fun t => t.IsIncome) := by
          simp [List.filter_cons, hI]
        rw [List.foldl_cons, hfE, hfI]
        refine ⟨?_, ?_, ?_, ?_⟩
        · rw [List.map_cons, List.sum_cons, e1, hsE, sumTotals_aggregateCategory]
          ring
        · rw [List.map_cons, List.sum_cons, e2, hsTE]
          ring
        · rw [i1, hsI]
        · rw [i2, hsTI]
      | false =>
        have hE' : ¬ (tx.IsExpense = true) := by
          rw [hE]
          exact Bool.false_ne_true
        have hstep : aggStep st tx = st := by
          unfold aggStep
          rw [if_neg hI', if_neg hE']
        have hfE : (tx :: rest).filter (fun t => t.IsExpense) =
            rest.filter (fun t => t.IsExpense) := by
          simp [List.filter_cons, hE]
        have hfI : (tx :: rest).filter (fun t => t.IsIncome) =
            rest.filter (fun t => t.IsIncome) := by
          simp [List.filter_cons, hI]
        rw [List.foldl_cons, hfE, hfI, hstep]
        rw [hstep] at e1 e2 i1 i2
        exact ⟨e1, e2, i1, i2⟩

/-- Rounding each list element to two decimals moves the sum by at most
1/200 per element. -/
theorem sum_map_roundToTwo_bound (ps : List ℚ) :
    |(ps.map roundToTwo).sum - ps.sum| ≤ (ps.length : ℚ) / 200 := by
  induction ps with
  | nil => simp
  | cons p tl ih =>
    simp only [List.map_cons, List.sum_cons, List.length_cons]
    have habs : |(roundToTwo p + ((tl.map roundToTwo).sum)) - (p + tl.sum)| ≤
        |roundToTwo p - p| + |(tl.map roundToTwo).sum - tl.sum| := by
      have : (roundToTwo p + ((tl.map roundToTwo).sum)) - (p + tl.sum) =
          (roundToTwo p - p) + ((tl.map roundToTwo).sum - tl.sum) := by ring
      rw [this]
      exact abs_add _ _
    have := roundToTwo_abs_le p
    push_cast
    linarith

/-- With a positive type total, the percentage fields produced by
`calculatePercentages` are the two-decimal roundings of the true shares. -/
theorem sumPercentages_calc (cats : List (String × CategoryDetail)) (T : ℚ)
    (hT : 0 < T) :
    sumPercentages (calculatePercentages cats T) =
      ((cats.map fun cd => cd.2.Total / T * 100).map roundToTwo).sum := by
  unfold sumPercentages calculatePercentages
  rw [List.map_map, List.map_map]
  congr 1
  apply List.map_congr_left
  intro cd _
  simp [hT]

/-- Dividing each total by `T` and scaling by 100 factors out of the sum. -/
theorem shares_factor (cats : List (String × CategoryDetail)) (T : ℚ) :
    (cats.map fun cd => cd.2.Total / T * 100).sum =
      (cats.map fun cd => cd.2.Total).sum / T * 100 := by
  induction cats with
  | nil => simp
  | cons hd tl ih =>
    simp only [List.map_cons, List.sum_cons]
    rw [ih]
    ring

/-- The true percentage shares of a type sum to exactly 100. -/
theorem true_shares_sum (cats : List (String × CategoryDetail)) (T : ℚ)
    (hT : T ≠ 0) (hsum : sumTotals cats = T) :
    (cats.map fun cd => cd.2.Total / T * 100).sum = 100 := by
  unfold sumTotals at hsum
  rw [shares_factor, hsum, div_self hT]
  norm_num

/-- A store of 23 expense transactions engineered so that per-category
rounding pushes the percentage sum to 100.11: twenty-two 0.15 expenses in
distinct categories (share 0.015%, rounded up to 0.02%) and one 996.70
expense (share 99.67% exactly). -/
def c3Repo : JSONRepository :=
  ⟨((List.range 22).map fun i =>
      ⟨"2024-01-01", -(15/100), "c" ++ toString i, "", "expense"⟩) ++
    [⟨"2024-01-01", -(9967/10), "big", "", "expense"⟩]⟩

/-- Claim C3 as frozen is false on the code: the rounded per-category expense
percentages of `c3Repo` sum to 100.11, which is farther than 0.1 from 100.
The 0.1 bound only holds for boundedly many categories; the per-category
rounding error is 0.005. -/
theorem c3_counterexample :
    (GetCategorySummary c3Repo).map (fun s => sumPercentages s.Expenses) =
      .ok 100.11 ∧
    (0.1 : ℚ) < 100.11 - 100 := by
  refine ⟨by decide, by norm_num⟩

/-- Claim C3 (amended): for every store whose income transactions carry
non-negative amounts, the rounded per-category percentages of a type with a
strictly positive type total sum to 100 within 1/200 per category of that
type (hence within 0.1 whenever the type has at most 20 categories). -/
theorem c3_percentage_sum (repo : JSONRepository) (s : CategorySummary)
    (hok : GetCategorySummary repo = .ok s)
    (hsign : ∀ tx ∈ repo.transactions, tx.IsIncome = true → 0 ≤ tx.Amount) :
    (0 < (aggregateTransactions repo.transactions).totalExpenses →
      |sumPercentages s.Expenses - 100| ≤ (s.Expenses.length : ℚ) / 200) ∧
    (0 < (aggregateTransactions repo.transactions).totalIncome →
      |sumPercentages s.Income - 100| ≤ (s.Income.length : ℚ) / 200) := by
  have hcomp : s.Expenses =
      calculatePercentages (aggregateTransactions repo.transactions).expenseCats
        (aggregateTransactions repo.transactions).totalExpenses ∧
      s.Income =
      calculatePercentages (aggregateTransactions repo.transactions).incomeCats
        (aggregateTransactions repo.transactions).totalIncome := by
    unfold GetCategorySummary at hok
    cases hga : repo.GetAll with
    | error e => rw [hga] at hok; exact absurd hok (by simp [Bind.bind, Except.bind])
    | ok txs =>
      have htxs : txs = repo.transactions := by
        unfold JSONRepository.GetAll at hga
        split at hga
        · exact absurd hga (by simp)
        · exact (Except.ok.inj hga).symm
      rw [hga] at hok
      simp only [Bind.bind, Except.bind] at hok
      cases hdr : getDateRangeFromTransactions txs with
      | error e => rw [hdr] at hok; exact absurd hok (by simp)
      | ok range =>
        rw [hdr] at hok
        simp only [pure, Except.pure] at hok
        have := Except.ok.inj hok
        rw [← this, htxs]
        exact ⟨rfl, rfl⟩
  obtain ⟨hE, hI⟩ := hcomp
  obtain ⟨se1, se2, si1, si2⟩ :=
    aggState_invariant repo.transactions ⟨[], [], 0, 0⟩
  constructor
  · intro hT
    have hsumT : sumTotals (aggregateTransactions repo.transactions).expenseCats =
        (aggregateTransactions repo.transactions).totalExpenses := by
      unfold aggregateTransactions
      rw [se1, se2]
      simp [sumTotals]
    rw [hE, sumPercentages_calc _ _ hT]
    have h100 := true_shares_sum _ _ (ne_of_gt hT) hsumT
    have hbound := sum_map_roundToTwo_bound
      (((aggregateTransactions repo.transactions).expenseCats).map
        fun cd => cd.2.Total / (aggregateTransactions repo.transactions).totalExpenses * 100)
    rw [h100] at hbound
    have hlen : ((calculatePercentages
        (aggregateTransactions repo.transactions).expenseCats
        (aggregateTransactions repo.transactions).totalExpenses).length : ℚ) =
        (((aggregateTransactions repo.transactions).expenseCats).length : ℚ) := by
      unfold calculatePercentages
      rw [List.length_map]
    rw [hlen]
    simpa using hbound
  · intro hT
    have habs : ((repo.transactions.filter fun tx => tx.IsIncome).map
        fun tx => tx.AbsoluteAmount).sum =
        ((repo.transactions.filter fun tx => tx.IsIncome).map
        fun tx => tx.Amount).sum := by
      congr 1
      apply List.map_congr_left
      intro tx htx
      have hmem := (List.mem_filter.mp htx).1
      have hinc := (List.mem_filter.mp htx).2
      exact abs_of_nonneg (hsign tx hmem hinc)
    have hsumT : sumTotals (aggregateTransactions repo.transactions).incomeCats =
        (aggregateTransactions repo.transactions).totalIncome := by
      unfold aggregateTransactions
      rw [si1, si2, habs]
      simp [sumTotals]
    rw [hI, sumPercentages_calc _ _ hT]
    have h100 := true_shares_sum _ _ (ne_of_gt hT) hsumT
    have hbound := sum_map_roundToTwo_bound
      (((aggregateTransactions repo.transactions).incomeCats).map
        fun cd => cd.2.Total / (aggregateTransactions repo.transactions).totalIncome * 100)
    rw [h100] at hbound
    have hlen : ((calculatePercentages
        (aggregateTransactions repo.transactions).incomeCats
        (aggregateTransactions repo.transactions).totalIncome).length : ℚ) =
        (((aggregateTransactions repo.transactions).incomeCats).length : ℚ) := by
      unfold calculatePercentages
      rw [List.length_map]
    rw [hlen]
    simpa using hbound

/-- The summary `GetCategorySummary` produces on the fixture. -/
def fixtureSummary : CategorySummary :=
  { Income := [("salary", ⟨8400, 3, 100⟩)],
    Expenses := [("rent", ⟨2400, 2, 90.91⟩), ("groceries", ⟨195, 2, 7.39⟩),
                 ("utilities", ⟨45, 1, 1.7⟩)],
    Summary := ⟨8400, 2640, 5760, 68.57⟩,
    Period := ⟨"2024-01-01", "2024-02-04", 2⟩ }

/-- Witness for `c3_percentage_sum` on the fixture store. -/
theorem c3_percentage_sum_witness :
    GetCategorySummary fixtureRepo = .ok fixtureSummary ∧
    (∀ tx ∈ fixtureRepo.transactions, tx.IsIncome = true → 0 ≤ tx.Amount) ∧
    0 < (aggregateTransactions fixtureRepo.transactions).totalExpenses ∧
    |sumPercentages fixtureSummary.Expenses - 100| ≤
      (fixtureSummary.Expenses.length : ℚ) / 200 :=
  ⟨by decide, by decide, by decide,
   (c3_percentage_sum fixtureRepo fixtureSummary (by decide) (by decide)).1 (by decide)⟩

/-! ## Claim C9 — `GetTimeline` skips unparsable dates, aggregates by
year-month, and emits in ascending key order

First, the order theory of the bytewise string comparison backing the sort. -/

/-- `charListLt` is irreflexive. -/
theorem charListLt_irrefl (as : List Char) : charListLt as as = false := by
  induction as with
  | nil => rfl
  | cons a tl ih =>
    unfold charListLt
    rw [if_neg (lt_irrefl a), if_neg (lt_irrefl a)]
    exact ih

/-- `charListLt` is trichotomous. -/
theorem charListLt_trichotomy (as bs : List Char) :
    charListLt as bs = true ∨ as = bs ∨ charListLt bs as = true := by
  induction as generalizing bs with
  | nil =>
    cases bs with
    | nil => exact Or.inr (Or.inl rfl)
    | cons b bl => exact Or.inl rfl
  | cons a al ih =>
    cases bs with
    | nil => exact Or.inr (Or.inr rfl)
    | cons b bl =>
      rcases lt_trichotomy a b with h | h | h
      · left
        unfold charListLt
        rw [if_pos h]
      · subst h
        rcases ih bl with h1 | h1 | h1
        · left
          unfold charListLt
          rw [if_neg (lt_irrefl a), if_neg (lt_irrefl a)]
          exact h1
        · right
          left
          rw [h1]
        · right
          right
          unfold charListLt
          rw [if_neg (lt_irrefl a), if_neg (lt_irrefl a)]
          exact h1
      · right
        right
        unfold charListLt
        rw [if_pos h]

/-- `charListLt` is transitive. -/
theorem charListLt_trans (as bs cs : List Char) (h1 : charListLt as bs = true)
    (h2 : charListLt bs cs = true) : charListLt as cs = true := by
  induction as generalizing bs cs with
  | nil =>
    cases cs with
    | nil =>
      cases bs with
      | nil => exact absurd h1 (by rw [charListLt_irrefl]; exact Bool.false_ne_true)
      | cons b bl => exact absurd h2 (by unfold charListLt; exact Bool.false_ne_true)
    | cons c cl => rfl
  | cons a al ih =>
    cases bs with
    | nil => exact absurd h1 (by unfold charListLt; exact Bool.false_ne_true)
    | cons b bl =>
      cases cs with
      | nil => exact absurd h2 (by unfold charListLt; exact Bool.false_ne_true)
      | cons c cl =>
        unfold charListLt at h1 h2 ⊢
        by_cases hab : a < b
        · by_cases hbc : b < c
          · rw [if_pos (lt_trans hab hbc)]
          · by_cases hcb : c < b
            · rw [if_neg hbc, if_pos hcb] at h2
              exact absurd h2 Bool.false_ne_true
            · have hbceq : b = c := le_antisymm (le_of_not_lt hcb) (le_of_not_lt hbc)
              rw [← hbceq]
              rw [if_pos hab]
        · by_cases hba : b < a
          · rw [if_neg hab, if_pos hba] at h1
            exact absurd h1 Bool.false_ne_true
          · have habeq : a = b := le_antisymm (le_of_not_lt hba) (le_of_not_lt hab)
            subst habeq
            rw [if_neg (lt_irrefl a), if_neg (lt_irrefl a)] at h1
            by_cases hac : a < c
            · rw [if_pos hac]
            · by_cases hca : c < a
              · rw [if_neg hac, if_pos hca] at h2
                exact absurd h2 Bool.false_ne_true
              · rw [if_neg hac, if_neg hca] at h2 ⊢
                exact ih bl cl h1 h2

/-- Strings with equal character lists are equal. -/
theorem stringDataInj {s t : String} (h : s.data = t.data) : s = t := by
  cases s
  cases t
  cases h
  rfl

/-- `periodLe` is total. -/
instance : IsTotal TimelinePoint periodLe := by
  constructor
  intro a b
  unfold periodLe goStrLt
  rcases charListLt_trichotomy a.Period.data b.Period.data with h | h | h
  · left
    cases hx : charListLt b.Period.data a.Period.data with
    | false => rfl
    | true =>
      have hirr := charListLt_trans _ _ _ h hx
      rw [charListLt_irrefl] at hirr
      exact absurd hirr Bool.false_ne_true
  · left
    rw [h, charListLt_irrefl]
  · right
    cases hx : charListLt a.Period.data b.Period.data with
    | false => rfl
    | true =>
      have hirr := charListLt_trans _ _ _ h hx
      rw [charListLt_irrefl] at hirr
      exact absurd hirr Bool.false_ne_true

/-- `periodLe` is transitive. -/
instance : IsTrans TimelinePoint periodLe := by
  constructor
  intro a b c hab hbc
  unfold periodLe goStrLt at hab hbc ⊢
  cases hx : charListLt c.Period.data a.Period.data with
  | false => rfl
  | true =>
    exfalso
    rcases charListLt_trichotomy c.Period.data b.Period.data with h | h | h
    · rw [h] at hbc
      exact Bool.noConfusion hbc
    · rw [h] at hx
      rw [hx] at hab
      exact Bool.noConfusion hab
    · have hba := charListLt_trans _ _ _ h hx
      rw [hba] at hab
      exact Bool.noConfusion hab

/-! Association-list lemmas for the timeline grouping map. -/

/-- Looking up the inserted key returns the updated point (entries absent
from the map start from the zero point with the key as period). -/
theorem timelineInsert_lookup_self (l : List (String × TimelinePoint))
    (k : String) (tx : Transaction) :
    (timelineInsert l k tx).lookup k =
      some (timelinePointUpd tx ((l.lookup k).getD ⟨k, 0, 0, 0⟩)) := by
  induction l with
  | nil => simp [timelineInsert, List.lookup]
  | cons hd tl ih =>
    obtain ⟨k0, p⟩ := hd
    unfold timelineInsert
    by_cases hk : k0 = k
    · subst hk
      simp [List.lookup]
    · rw [if_neg hk]
      have hbeq : (k == k0) = false := by
        rw [beq_eq_false_iff_ne]
        exact fun he => hk he.symm
      simp only [List.lookup, hbeq]
      exact ih

/-- Looking up a different key is unchanged by the insert. -/
theorem timelineInsert_lookup_ne (l : List (String × TimelinePoint))
    (k k' : String) (tx : Transaction) (h : k' ≠ k) :
    (timelineInsert l k tx).lookup k' = l.lookup k' := by
  have hbeq : (k' == k) = false := by
    rw [beq_eq_false_iff_ne]
    exact h
  induction l with
  | nil => simp [timelineInsert, List.lookup, hbeq]
  | cons hd tl ih =>
    obtain ⟨k0, p⟩ := hd
    unfold timelineInsert
    by_cases hk : k0 = k
    · subst hk
      simp [List.lookup, hbeq]
    · rw [if_neg hk]
      simp only [List.lookup]
      cases hbe : (k' == k0) with
      | true => rfl
      | false => exact ih

/-- Key membership after a `timelineInsert`. -/
theorem timelineInsert_keys_mem (l : List (String × TimelinePoint))
    (k : String) (tx : Transaction) (k' : String) :
    k' ∈ (timelineInsert l k tx).map Prod.fst ↔
      (k' ∈ l.map Prod.fst ∨ k' = k) := by
  induction l with
  | nil => simp [timelineInsert]
  | cons hd tl ih =>
    obtain ⟨k0, p⟩ := hd
    unfold timelineInsert
    by_cases hk : k0 = k
    · subst hk
      rw [if_pos rfl]
      simp only [List.map_cons, List.mem_cons]
      tauto
    · rw [if_neg hk]
      simp only [List.map_cons, List.mem_cons, ih]
      tauto

/-- `timelineInsert` keeps the key list duplicate-free. -/
theorem timelineInsert_keys_nodup (l : List (String × TimelinePoint))
    (k : String) (tx : Transaction) (h : (l.map Prod.fst).Nodup) :
    ((timelineInsert l k tx).map Prod.fst).Nodup := by
  induction l with
  | nil => simp [timelineInsert]
  | cons hd tl ih =>
    obtain ⟨k0, p⟩ := hd
    unfold timelineInsert
    by_cases hk : k0 = k
    · subst hk
      simpa using h
    · rw [if_neg hk]
      simp only [List.map_cons, List.nodup_cons] at h ⊢
      refine ⟨?_, ih h.2⟩
      rw [timelineInsert_keys_mem]
      rintro (hmem | rfl)
      · exact h.1 hmem
      · exact hk rfl

/-- The month's income contribution of a transaction list for key `k`:
amounts of income transactions whose year-month key is `k` (the sum
`GetTimeline`'s loop accumulates into that month's `Income`). -/
def incomeSumFor (txs : List Transaction) (k : String) : ℚ :=
  match txs with
  | [] => 0
  | tx :: rest =>
    (if tx.GetYearMonth = some k ∧ tx.IsIncome = true then tx.Amount else 0) +
      incomeSumFor rest k

/-- The month's expense contribution: absolute amounts of expense
transactions whose year-month key is `k`. -/
def expenseSumFor (txs : List Transaction) (k : String) : ℚ :=
  match txs with
  | [] => 0
  | tx :: rest =>
    (if tx.GetYearMonth = some k ∧ tx.IsExpense = true then tx.AbsoluteAmount else 0) +
      expenseSumFor rest k

/-- The accumulated income of key `k` in the grouping map (0 when absent). -/
def accInc (l : List (String × TimelinePoint)) (k : String) : ℚ :=
  ((l.lookup k).map TimelinePoint.Income).getD 0

/-- The accumulated expenses of key `k` in the grouping map (0 when absent). -/
def accExp (l : List (String × TimelinePoint)) (k : String) : ℚ :=
  ((l.lookup k).map TimelinePoint.Expenses).getD 0

/-- How one loop body changes a point's income. -/
theorem timelinePointUpd_income (tx : Transaction) (p : TimelinePoint) :
    (timelinePointUpd tx p).Income =
      p.Income + (if tx.IsIncome = true then tx.Amount else 0) := by
  unfold timelinePointUpd
  cases hI : tx.IsIncome with
  | true => simp
  | false =>
    cases hE : tx.IsExpense with
    | true => simp
    | false => simp

/-- How one loop body changes a point's expenses. -/
theorem timelinePointUpd_expenses (tx : Transaction) (p : TimelinePoint) :
    (timelinePointUpd tx p).Expenses =
      p.Expenses + (if tx.IsExpense = true then tx.AbsoluteAmount else 0) := by
  unfold timelinePointUpd
  cases hI : tx.IsIncome with
  | true =>
    have hE := isIncome_not_isExpense tx hI
    rw [hE]
    simp
  | false =>
    cases hE : tx.IsExpense with
    | true => simp
    | false => simp

/-- Every entry of the grouping map carries its own key as its period. -/
theorem timelineInsert_period (l : List (String × TimelinePoint))
    (k : String) (tx : Transaction)
    (h : ∀ e ∈ l, (e : String × TimelinePoint).2.Period = e.1) :
    ∀ e ∈ timelineInsert l k tx, e.2.Period = e.1 := by
  have hupd : ∀ p : TimelinePoint, (timelinePointUpd tx p).Period = p.Period := by
    intro p
    unfold timelinePointUpd
    split
    · rfl
    · split <;> rfl
  induction l with
  | nil =>
    intro e he
    simp only [timelineInsert, List.mem_singleton] at he
    subst he
    exact hupd _
  | cons hd tl ih =>
    obtain ⟨k0, p⟩ := hd
    intro e he
    unfold timelineInsert at he
    by_cases hk : k0 = k
    · subst hk
      rw [if_pos rfl] at he
      rcases List.mem_cons.mp he with rfl | hmem
      · exact (hupd p).trans (h (k0, p) (List.mem_cons_self _ _))
      · exact h e (List.mem_cons_of_mem _ hmem)
    · rw [if_neg hk] at he
      rcases List.mem_cons.mp he with rfl | hmem
      · exact h (k0, p) (List.mem_cons_self _ _)
      · exact ih (fun e' he' => h e' (List.mem_cons_of_mem _ he')) e hmem

/-- One `buildStep` adds exactly the transaction's contribution to its own
month key and leaves every other key unchanged. -/
theorem buildStep_acc (acc : List (String × TimelinePoint)) (tx : Transaction)
    (k : String) :
    accInc (buildStep acc tx) k =
      accInc acc k +
        (if tx.GetYearMonth = some k ∧ tx.IsIncome = true then tx.Amount else 0) ∧
    accExp (buildStep acc tx) k =
      accExp acc k +
        (if tx.GetYearMonth = some k ∧ tx.IsExpense = true then tx.AbsoluteAmount
         else 0) := by
  cases hym : tx.GetYearMonth with
  | none =>
    unfold buildStep
    rw [hym]
    constructor <;>
      · rw [if_neg (by rintro ⟨he, -⟩; exact Option.noConfusion he)]
        ring
  | some ym =>
    unfold buildStep
    rw [hym]
    by_cases hk : ym = k
    · subst hk
      unfold accInc accExp
      rw [timelineInsert_lookup_self]
      constructor
      · cases hl : acc.lookup ym with
        | none => simp [hl, timelinePointUpd_income, hym]
        | some p => simp [hl, timelinePointUpd_income, hym]
      · cases hl : acc.lookup ym with
        | none => simp [hl, timelinePointUpd_expenses, hym]
        | some p => simp [hl, timelinePointUpd_expenses, hym]
    · unfold accInc accExp
      rw [timelineInsert_lookup_ne _ _ _ _ (fun he => hk he.symm)]
      constructor
      · rw [if_neg (by rintro ⟨he, -⟩; exact hk (Option.some.inj he))]
        ring
      · rw [if_neg (by rintro ⟨he, -⟩; exact hk (Option.some.inj he))]
        ring

/-- Invariant of `GetTimeline`'s grouping loop: the accumulated income and
expenses of every key grow by exactly that key's contributions. -/
theorem buildFold_values (txs : List Transaction)
    (acc : List (String × TimelinePoint)) (k : String) :
    accInc (txs.foldl buildStep acc) k = accInc acc k + incomeSumFor txs k ∧
    accExp (txs.foldl buildStep acc) k = accExp acc k + expenseSumFor txs k := by
  induction txs generalizing acc with
  | nil => simp [incomeSumFor, expenseSumFor]
  | cons tx rest ih =>
    rw [List.foldl_cons]
    obtain ⟨ihI, ihE⟩ := ih (buildStep acc tx)
    obtain ⟨hsI, hsE⟩ := buildStep_acc acc tx k
    constructor
    · rw [ihI, hsI]
      rw [show incomeSumFor (tx :: rest) k =
          (if tx.GetYearMonth = some k ∧ tx.IsIncome = true then tx.Amount else 0) +
            incomeSumFor rest k from rfl]
      ring
    · rw [ihE, hsE]
      rw [show expenseSumFor (tx :: rest) k =
          (if tx.GetYearMonth = some k ∧ tx.IsExpense = true then tx.AbsoluteAmount
           else 0) + expenseSumFor rest k from rfl]
      ring

/-- A key appears in the grouping map exactly when some transaction carries
it (on top of the keys already in the accumulator). -/
theorem buildFold_keys (txs : List Transaction)
    (acc : List (String × TimelinePoint)) (k : String) :
    k ∈ (txs.foldl buildStep acc).map Prod.fst ↔
      (k ∈ acc.map Prod.fst ∨ ∃ tx ∈ txs, tx.GetYearMonth = some k) := by
  induction txs generalizing acc with
  | nil => simp
  | cons tx rest ih =>
    rw [List.foldl_cons, ih]
    cases hym : tx.GetYearMonth with
    | none =>
      unfold buildStep
      rw [hym]
      simp only [List.mem_cons]
      constructor
      · rintro (h | ⟨t, ht, hk⟩)
        · exact Or.inl h
        · exact Or.inr ⟨t, Or.inr ht, hk⟩
      · rintro (h | ⟨t, rfl | ht, hk⟩)
        · exact Or.inl h
        · rw [hym] at hk
          cases hk
        · exact Or.inr ⟨t, ht, hk⟩
    | some ym =>
      unfold buildStep
      rw [hym, timelineInsert_keys_mem]
      simp only [List.mem_cons]
      constructor
      · rintro ((h | rfl) | ⟨t, ht, hk⟩)
        · exact Or.inl h
        · exact Or.inr ⟨tx, Or.inl rfl, hym⟩
        · exact Or.inr ⟨t, Or.inr ht, hk⟩
      · rintro (h | ⟨t, rfl | ht, hk⟩)
        · exact Or.inl (Or.inl h)
        · rw [hym] at hk
          exact Or.inl (Or.inr (Option.some.inj hk).symm)
        · exact Or.inr ⟨t, ht, hk⟩

/-- The grouping loop keeps the key list duplicate-free. -/
theorem buildFold_keys_nodup (txs : List Transaction)
    (acc : List (String × TimelinePoint)) (h : (acc.map Prod.fst).Nodup) :
    ((txs.foldl buildStep acc).map Prod.fst).Nodup := by
  induction txs generalizing acc with
  | nil => exact h
  | cons tx rest ih =>
    rw [List.foldl_cons]
    apply ih
    cases hym : tx.GetYearMonth with
    | none =>
      unfold buildStep
      rw [hym]
      exact h
    | some ym =>
      unfold buildStep
      rw [hym]
      exact timelineInsert_keys_nodup _ _ _ h

/-- The grouping loop keeps the period field of every entry equal to its key. -/
theorem buildFold_period (txs : List Transaction)
    (acc : List (String × TimelinePoint))
    (h : ∀ e ∈ acc, (e : String × TimelinePoint).2.Period = e.1) :
    ∀ e ∈ txs.foldl buildStep acc, e.2.Period = e.1 := by
  induction txs generalizing acc with
  | nil => exact h
  | cons tx rest ih =>
    rw [List.foldl_cons]
    apply ih
    cases hym : tx.GetYearMonth with
    | none =>
      unfold buildStep
      rw [hym]
      exact h
    | some ym =>
      unfold buildStep
      rw [hym]
      exact timelineInsert_period _ _ _ h

/-- In an association list with duplicate-free keys, every member is found by
looking up its own key. -/
theorem lookup_of_mem_nodup (l : List (String × TimelinePoint))
    (h : (l.map Prod.fst).Nodup) (e : String × TimelinePoint) (he : e ∈ l) :
    l.lookup e.1 = some e.2 := by
  induction l with
  | nil => cases he
  | cons hd tl ih =>
    obtain ⟨k0, p0⟩ := hd
    simp only [List.map_cons, List.nodup_cons] at h
    rcases List.mem_cons.mp he with rfl | hmem
    · simp [List.lookup]
    · have hne : e.1 ≠ k0 := by
        intro heq
        exact h.1 (heq ▸ List.mem_map_of_mem Prod.fst hmem)
      have hbeq : (e.1 == k0) = false := by
        rw [beq_eq_false_iff_ne]
        exact hne
      simp only [List.lookup, hbeq]
      exact ih h.2 hmem

/-- Prefiltering out the unparsable-date transactions does not change the
grouping loop: the loop already skips them. -/
theorem buildFold_filter (txs : List Transaction)
    (acc : List (String × TimelinePoint)) :
    (txs.filter fun tx => (tx.GetYearMonth).isSome).foldl buildStep acc =
      txs.foldl buildStep acc := by
  induction txs generalizing acc with
  | nil => rfl
  | cons tx rest ih =>
    rw [List.filter_cons]
    cases hym : tx.GetYearMonth with
    | none =>
      rw [if_neg (by simp)]
      have hstep : buildStep acc tx = acc := by
        unfold buildStep
        rw [hym]
      rw [List.foldl_cons, hstep]
      exact ih acc
    | some ym =>
      rw [if_pos (by simp), List.foldl_cons, List.foldl_cons]
      exact ih (buildStep acc tx)

/-- The filtered and unfiltered grouping maps coincide. -/
theorem buildMonthly_filter (txs : List Transaction) :
    buildMonthly (txs.filter fun tx => (tx.GetYearMonth).isSome) = buildMonthly txs :=
  buildFold_filter txs []

/-- Claim C9: on every non-empty store, `GetTimeline` succeeds; its result is
exactly the pipeline run on the parseable-date transactions (unparsable ones
are skipped, never failing the call); each emitted point carries the rounded
income/expense sums of the transactions of its year-month key and a net
recomputed from the rounded values; a key is emitted iff some transaction
carries it; and the points are strictly ascending in the zero-padded period
key under the bytewise string order. -/
theorem c9_timeline_spec (txs : List Transaction) (hne : txs ≠ []) :
    ∃ resp, GetTimeline ⟨txs⟩ = .ok resp ∧
      resp.Timeline =
        ((buildMonthly (txs.filter fun tx => (tx.GetYearMonth).isSome)).map
          fun kp => roundPoint kp.2).insertionSort periodLe ∧
      (∀ p ∈ resp.Timeline,
        p.Income = roundToTwo (incomeSumFor txs p.Period) ∧
        p.Expenses = roundToTwo (expenseSumFor txs p.Period) ∧
        p.Net = roundToTwo (p.Income - p.Expenses)) ∧
      (∀ k, (∃ p ∈ resp.Timeline, p.Period = k) ↔
        ∃ tx ∈ txs, tx.GetYearMonth = some k) ∧
      resp.Timeline.Pairwise (fun a b => goStrLt a.Period b.Period = true) := by
  have hnodup : (((txs.foldl buildStep []).map Prod.fst)).Nodup :=
    buildFold_keys_nodup txs [] (by simp)
  have hperiod : ∀ e ∈ txs.foldl buildStep [],
      (e : String × TimelinePoint).2.Period = e.1 :=
    buildFold_period txs [] (by simp)
  have hperm : (((buildMonthly txs).map fun kp => roundPoint kp.2).insertionSort
      periodLe).Perm ((buildMonthly txs).map fun kp => roundPoint kp.2) :=
    List.perm_insertionSort periodLe _
  refine ⟨{ Timeline := ((buildMonthly txs).map fun kp => roundPoint kp.2).insertionSort
              periodLe,
            Aggregation := "monthly" }, ?_, ?_, ?_, ?_, ?_⟩
  · have hga : JSONRepository.GetAll ⟨txs⟩ = .ok txs := by
      unfold JSONRepository.GetAll
      rw [if_neg hne]
    unfold GetTimeline
    rw [hga]
    rfl
  · show ((buildMonthly txs).map fun kp => roundPoint kp.2).insertionSort periodLe = _
    rw [buildMonthly_filter]
  · intro p hp
    have hp' : p ∈ (buildMonthly txs).map fun kp => roundPoint kp.2 :=
      hperm.mem_iff.mp hp
    obtain ⟨kp, hkp, rfl⟩ := List.mem_map.mp hp'
    have hlookup := lookup_of_mem_nodup _ hnodup kp hkp
    have hper : (roundPoint kp.2).Period = kp.1 := hperiod kp hkp
    have haccI : kp.2.Income = incomeSumFor txs kp.1 := by
      have hv := (buildFold_values txs [] kp.1).1
      unfold accInc at hv
      rw [hlookup] at hv
      simpa [List.lookup] using hv
    have haccE : kp.2.Expenses = expenseSumFor txs kp.1 := by
      have hv := (buildFold_values txs [] kp.1).2
      unfold accExp at hv
      rw [hlookup] at hv
      simpa [List.lookup] using hv
    refine ⟨?_, ?_, rfl⟩
    · rw [hper]
      show roundToTwo kp.2.Income = roundToTwo (incomeSumFor txs kp.1)
      rw [haccI]
    · rw [hper]
      show roundToTwo kp.2.Expenses = roundToTwo (expenseSumFor txs kp.1)
      rw [haccE]
  · intro k
    constructor
    · rintro ⟨p, hp, rfl⟩
      have hp' : p ∈ (buildMonthly txs).map fun kp => roundPoint kp.2 :=
        hperm.mem_iff.mp hp
      obtain ⟨kp, hkp, rfl⟩ := List.mem_map.mp hp'
      have hper : (roundPoint kp.2).Period = kp.1 := hperiod kp hkp
      rw [hper]
      have hmem := (buildFold_keys txs [] kp.1).mp
        (List.mem_map_of_mem Prod.fst hkp)
      rcases hmem with h | h
      · simp at h
      · exact h
    · rintro ⟨tx, htx, hk⟩
      have hkey : k ∈ (txs.foldl buildStep []).map Prod.fst :=
        (buildFold_keys txs [] k).mpr (Or.inr ⟨tx, htx, hk⟩)
      obtain ⟨kp, hkp, hfst⟩ := List.mem_map.mp hkey
      refine ⟨roundPoint kp.2, ?_, ?_⟩
      · exact hperm.mem_iff.mpr (List.mem_map_of_mem _ hkp)
      · exact (hperiod kp hkp).trans hfst
  · have hsorted : List.Sorted periodLe
        (((buildMonthly txs).map fun kp => roundPoint kp.2).insertionSort periodLe) :=
      List.sorted_insertionSort periodLe _
    have hmapeq : (((buildMonthly txs).map fun kp => roundPoint kp.2).map
        fun p => p.Period) = (buildMonthly txs).map Prod.fst := by
      rw [List.map_map]
      apply List.map_congr_left
      intro kp hkp
      exact hperiod kp hkp
    have hnodup2 : ((((buildMonthly txs).map fun kp => roundPoint kp.2).insertionSort
        periodLe).map fun p => p.Period).Nodup := by
      refine (List.Perm.nodup_iff (List.Perm.map _ hperm)).mpr ?_
      rw [hmapeq]
      exact hnodup
    have hpairne := List.pairwise_map.mp hnodup2
    refine (List.Pairwise.and hsorted hpairne).imp ?_
    rintro a b ⟨hle, hne2⟩
    unfold periodLe goStrLt at hle
    unfold goStrLt
    rcases charListLt_trichotomy a.Period.data b.Period.data with h | h | h
    · exact h
    · exact absurd (stringDataInj h) hne2
    · rw [h] at hle
      exact Bool.noConfusion hle

/-- Witness for `c9_timeline_spec` on the fixture transactions. -/
theorem c9_timeline_spec_witness :
    fixtureTxs ≠ [] ∧
    ∃ resp, GetTimeline ⟨fixtureTxs⟩ = .ok resp ∧
      resp.Timeline =
        ((buildMonthly (fixtureTxs.filter fun tx => (tx.GetYearMonth).isSome)).map
          fun kp => roundPoint kp.2).insertionSort periodLe ∧
      (∀ p ∈ resp.Timeline,
        p.Income = roundToTwo (incomeSumFor fixtureTxs p.Period) ∧
        p.Expenses = roundToTwo (expenseSumFor fixtureTxs p.Period) ∧
        p.Net = roundToTwo (p.Income - p.Expenses)) ∧
      (∀ k, (∃ p ∈ resp.Timeline, p.Period = k) ↔
        ∃ tx ∈ fixtureTxs, tx.GetYearMonth = some k) ∧
      resp.Timeline.Pairwise (fun a b => goStrLt a.Period b.Period = true) :=
  ⟨by decide, c9_timeline_spec fixtureTxs (by decide)⟩

end Stori
